import Mathlib

/-!
Shallow embedding of the dependawhat dependency-update checker core:
title parsing (extractPackageInfo), deny-list matching (isDenied),
skip-reason selection, policy merging (removeDuplicates) and the
Dependabot PR enumeration loop, translated from the Go source
(internal/scm/github.go and cmd/dependawhat/commands.go).
Strings are modelled as lists of characters; Unicode case folding is
modelled at the ASCII level (Char.toLower), which agrees with the Go
strings.ToLower and strings.EqualFold on ASCII data.
-/

abbrev Str := List Char

/-- strings.ToLower, at the ASCII level. -/
def lowerStr (s : Str) : Str := s.map Char.toLower

/-- The Go regexp character class for whitespace: tab, newline, form
feed, carriage return, space. -/
def isSpaceRe (c : Char) : Bool :=
  c == '\t' || c == '\n' || c == '\x0c' || c == '\r' || c == ' '

/-- unicode.IsSpace, as used by strings.Fields and strings.TrimSpace. -/
def isSpaceGo (c : Char) : Bool :=
  c == '\t' || c == '\n' || c == '\x0b' || c == '\x0c' || c == '\r' || c == ' ' ||
  c == '\x85' || c == '\xa0' || c == '\u1680' ||
  (decide ('\u2000' ≤ c) && decide (c ≤ '\u200a')) ||
  c == '\u2028' || c == '\u2029' || c == '\u202f' || c == '\u205f' || c == '\u3000'

/-- strings.HasPrefix s p. -/
def goHasPre (s p : Str) : Bool := List.isPrefixOf p s

/-- strings.HasSuffix s p. -/
def goHasSuf (s p : Str) : Bool := List.isSuffixOf p s

/-- strings.Contains s sub: sub occurs as a contiguous substring of s. -/
def containsSub (s sub : Str) : Bool :=
  match s with
  | [] => List.isPrefixOf sub []
  | c :: t => List.isPrefixOf sub (c :: t) || containsSub t sub

/-- strings.EqualFold, at the ASCII level. -/
def eqFold (a b : Str) : Bool := lowerStr a == lowerStr b

/-- strings.Index(s, "@"): position of the first at-sign, if any. -/
def idxOfAt : Str → Option Nat
  | [] => none
  | c :: t => if c == '@' then some 0 else (idxOfAt t).map (fun i => i + 1)

/-- strings.Split(s, "/"). -/
def splitSlash : Str → List Str
  | [] => [[]]
  | c :: t =>
    if c == '/' then [] :: splitSlash t
    else
      match splitSlash t with
      | [] => [[c]]
      | h :: r => (c :: h) :: r

/-- Helper for strings.Fields; acc is the current word, reversed. -/
def fieldsAux (acc : Str) : Str → List Str
  | [] => if acc == [] then [] else [acc.reverse]
  | c :: t =>
    if isSpaceGo c then
      if acc == [] then fieldsAux [] t else acc.reverse :: fieldsAux [] t
    else fieldsAux (c :: acc) t

/-- strings.Fields: whitespace-separated tokens of s. -/
def fieldsGo (s : Str) : List Str := fieldsAux [] s

/-- strings.TrimSpace. -/
def trimSpace (s : Str) : Str :=
  ((s.dropWhile fun c => isSpaceGo c).reverse.dropWhile fun c => isSpaceGo c).reverse

/-- Case-insensitive prefix test (the regexp fragment (?i)^kw). -/
def startsFold (s p : Str) : Bool := List.isPrefixOf (lowerStr p) (lowerStr s)

/-- One anchored title pattern of extractPackageInfo, namely the Go
regexp (?i)^kw\s+(S+)\s+(?:from|to) where S is the non-whitespace
class; on success returns the captured token.  Backtracking forces the
token to be the maximal non-whitespace run after the keyword, followed
by at least one whitespace character and then "from" or "to". -/
def matchTail (r1 : Str) : Option Str :=
  let ws1 := r1.takeWhile fun c => isSpaceRe c
  let r2 := r1.drop ws1.length
  let tok := r2.takeWhile fun c => !isSpaceRe c
  let r3 := r2.drop tok.length
  let ws2 := r3.takeWhile fun c => isSpaceRe c
  let r4 := r3.drop ws2.length
  if ws1 != [] && tok != [] && ws2 != [] &&
      (startsFold r4 ("from").toList || startsFold r4 ("to").toList) then
    some tok
  else none

def matchKw (kw s : Str) : Option Str :=
  if startsFold s kw then matchTail (s.drop kw.length) else none

/-- The trailing part of the chore pattern (?i)^chore.*bump\s+(S+)\s+(?:from|to):
the greedy dot-star (which cannot cross a newline) selects the latest
position at which the bump fragment matches. -/
def lastBumpFrom : Str → Option Str
  | [] => none
  | c :: t =>
    if c == '\n' then matchKw ("bump").toList (c :: t)
    else
      match lastBumpFrom t with
      | some tok => some tok
      | none => matchKw ("bump").toList (c :: t)

/-- The third extraction pattern, (?i)^chore.*bump\s+(S+)\s+(?:from|to). -/
def matchChore (s : Str) : Option Str :=
  if startsFold s ("chore").toList then lastBumpFrom (s.drop (("chore").toList).length)
  else none

/-- Phase 1 of extractPackageInfo: the three patterns, in order; the
first match wins.  Returns the empty string when none matches. -/
def phase1 (title : Str) : Str :=
  match matchKw ("bump").toList title with
  | some tok => tok
  | none =>
    match matchKw ("update").toList title with
    | some tok => tok
    | none =>
      match matchChore title with
      | some tok => tok
      | none => []

/-- Phase 2 of extractPackageInfo: among whitespace tokens after the
first, the first one containing a slash or an at-sign. -/
def fallbackTok (title : Str) : Str :=
  match fieldsGo title with
  | [] => []
  | _ :: rest =>
    match rest.find? (fun t => containsSub t ("/").toList || containsSub t ("@").toList) with
    | some t => t
    | none => []

/-- strings.TrimPrefix(s, "@"). -/
def trimAtSign (s : Str) : Str := if goHasPre s ("@").toList then s.drop 1 else s

/-- The organization fallback scan of extractPackageInfo: first
slash-separated segment (after the first) with no dot and no leading v. -/
def orgScan : List Str → Str
  | [] => []
  | p :: rest =>
    if !containsSub p (".").toList && !goHasPre p ("v").toList then p
    else orgScan rest

/-- Organization extraction from the package identifier (second half of
extractPackageInfo). -/
def extractOrgName (packageName : Str) : Str :=
  if packageName == [] then []
  else if goHasPre packageName ("@").toList && containsSub packageName ("/").toList then
    trimAtSign ((splitSlash packageName).headD [])
  else if containsSub packageName ("/").toList then
    if goHasPre packageName ("golang.org/x/").toList ||
        goHasPre packageName ("google.golang.org/").toList then []
    else if goHasPre packageName ("gopkg.in/").toList then
      if 2 < (splitSlash packageName).length then lowerStr ((splitSlash packageName).getD 1 [])
      else []
    else if decide (3 ≤ (splitSlash packageName).length) &&
        goHasPre packageName ("github.com/").toList then
      (splitSlash packageName).getD 1 []
    else
      match splitSlash packageName with
      | [] => []
      | _ :: rest => orgScan rest
  else []

/-- extractPackageInfo: package name and organization from a Dependabot
PR title. -/
def extractPackageInfo (title : Str) : Str × Str :=
  let p := phase1 title
  let packageName := if p == [] then fallbackTok title else p
  (packageName, extractOrgName packageName)

/-- The wildcard branch of isDenied: only four literal lower-case
patterns are recognized. -/
def wildcardDenies (packageName d : Str) : Bool :=
  (lowerStr d == ("*alpha*").toList && containsSub (lowerStr packageName) ("alpha").toList) ||
  (lowerStr d == ("*beta*").toList && containsSub (lowerStr packageName) ("beta").toList) ||
  (lowerStr d == ("*rc*").toList && containsSub (lowerStr packageName) ("rc").toList) ||
  (lowerStr d == ("*/v0").toList && goHasSuf (lowerStr packageName) ("/v0").toList)

/-- One iteration of the deniedPackages loop of isDenied: does the deny
entry d match the package name. -/
def pkgEntryDenies (packageName d : Str) : Bool :=
  if containsSub d ("*").toList then wildcardDenies packageName d
  else if eqFold packageName d then true
  else if containsSub d ("@").toList then
    containsSub (lowerStr packageName) (lowerStr d)
  else
    lowerStr packageName == lowerStr d ||
    (match idxOfAt (lowerStr packageName) with
     | some idx => decide (0 < idx) && ((lowerStr packageName).take idx == lowerStr d)
     | none => false)

/-- isDenied: is the package or the organization in the deny lists. -/
def isDenied (packageName orgName : Str) (deniedPackages deniedOrgs : List Str) : Bool :=
  deniedPackages.any (fun d => pkgEntryDenies packageName d) ||
  deniedOrgs.any (fun d => eqFold orgName d)

/-- The skip-reason string for a denied organization. -/
def orgReasonStr (orgName : Str) : Str :=
  ("org \x27").toList ++ orgName ++ ("\x27 is denied").toList

/-- The skip-reason string for a denied package entry. -/
def pkgReasonStr (d : Str) : Str :=
  ("package \x27").toList ++ d ++ ("\x27 is denied").toList

/-- The re-scan predicate of the reason loop in
GetDependabotPRsWithDenyList: equality or substring containment,
case-insensitively. -/
def reasonMatch (packageName d : Str) : Bool :=
  eqFold packageName d || containsSub (lowerStr packageName) (lowerStr d)

/-- The deniedOrgs reason loop of GetDependabotPRsWithDenyList. -/
def orgReasonScan (orgName : Str) : List Str → Str
  | [] => []
  | d :: rest => if eqFold orgName d then orgReasonStr orgName else orgReasonScan orgName rest

/-- The deniedPackages reason loop of GetDependabotPRsWithDenyList. -/
def pkgReasonScan (packageName : Str) : List Str → Str
  | [] => []
  | d :: rest => if reasonMatch packageName d then pkgReasonStr d else pkgReasonScan packageName rest

/-- SkipReason computation of GetDependabotPRsWithDenyList, run when a PR
is denied: first the org loop (only when the org name is non-empty),
then - when the reason is still empty and the package name is
non-empty - the package loop. -/
def skipReason (packageName orgName : Str) (dps dos : List Str) : Str :=
  let r := if orgName != [] then orgReasonScan orgName dos else []
  if r == [] && packageName != [] then pkgReasonScan packageName dps else r

/-- The denied/reason pair of a PR record: Skipped defaults to false and
SkipReason to the empty string; both are set only when isDenied holds. -/
def denyDecision (packageName orgName : Str) (dps dos : List Str) : Bool × Str :=
  if isDenied packageName orgName dps dos then
    (true, skipReason packageName orgName dps dos)
  else (false, [])

/-- DependencyUpdateQuery (internal/scm/deps.go). -/
structure DependencyUpdateQuery where
  owner : Str
  repo : Str
  deniedPackages : List Str
  deniedOrgs : List Str
deriving DecidableEq

/-- PRInfo (internal/scm/deps.go). -/
structure PRInfo where
  number : Int
  title : Str
  url : Str
  status : Str
  skipped : Bool
  skipReason : Str
deriving DecidableEq

/-- One pull request as returned by the source-control API. -/
structure PullData where
  number : Int
  title : Str
  url : Str
  userID : Int
  headSHA : Str
deriving DecidableEq

def dependabotUserID : Int := 49699333

/-- Assembly of one PRInfo record in GetDependabotPRsWithDenyList;
statusResult is none when the combined-status lookup failed, in which
case the Status field keeps its zero value. -/
def buildPR (q : DependencyUpdateQuery) (p : PullData) (statusResult : Option Str) : PRInfo :=
  let pkg := (extractPackageInfo p.title).1
  let org := (extractPackageInfo p.title).2
  let dec := denyDecision pkg org q.deniedPackages q.deniedOrgs
  { number := p.number
    title := p.title
    url := p.url
    status := match statusResult with | some st => st | none => []
    skipped := dec.1
    skipReason := dec.2 }

/-- The per-PR loop of GetDependabotPRsWithDenyList over the fetched
pull requests: keep only Dependabot-authored PRs and build a record for
each; statusOf is the external combined-status lookup keyed by head
commit (none modelling a failed lookup). -/
def processPulls (q : DependencyUpdateQuery) (statusOf : Str → Option Str) :
    List PullData → List PRInfo
  | [] => []
  | p :: rest =>
    if p.userID == dependabotUserID then
      buildPR q p (statusOf p.headSHA) :: processPulls q statusOf rest
    else processPulls q statusOf rest

/-- A sample fetched pull request, used to instantiate theorems. -/
def samplePull : PullData :=
  { number := 7
    title := ("Bump github.com/datadog/datadog-go from 5.0.0 to 5.1.0").toList
    url := ("https://example.test/pr/7").toList
    userID := dependabotUserID
    headSHA := ("abc123").toList }

/-- A sample query, used to instantiate theorems. -/
def sampleQuery : DependencyUpdateQuery :=
  { owner := ("myorg").toList
    repo := ("repo1").toList
    deniedPackages := []
    deniedOrgs := [("datadog").toList] }

/-- Normalization used by removeDuplicates (commands.go). -/
def normEntry (s : Str) : Str := lowerStr (trimSpace s)

/-- The loop of removeDuplicates; seen accumulates normalized keys. -/
def removeDupAux (seen : List Str) : List Str → List Str
  | [] => []
  | x :: xs =>
    if normEntry x != [] && !(seen.contains (normEntry x)) then
      x :: removeDupAux (normEntry x :: seen) xs
    else removeDupAux seen xs

/-- removeDuplicates (commands.go): drop blank entries and
case-insensitive duplicates, keeping first occurrences. -/
def removeDuplicates (l : List Str) : List Str := removeDupAux [] l

/-- DenyPolicy: the deny lists of one scope. -/
structure DenyPolicy where
  deniedPackages : List Str
  deniedOrgs : List Str
deriving DecidableEq

def emptyPolicy : DenyPolicy := { deniedPackages := [], deniedOrgs := [] }

/-- The policy merge of runCheck (commands.go): concatenate global and
repo-override lists, then removeDuplicates. -/
def resolvePolicy (g r : DenyPolicy) : DenyPolicy :=
  { deniedPackages := removeDuplicates (g.deniedPackages ++ r.deniedPackages)
    deniedOrgs := removeDuplicates (g.deniedOrgs ++ r.deniedOrgs) }

/-! ### String-level helper lemmas -/

theorem containsSub_infix_iff {s sub : Str} : containsSub s sub = true ↔ sub <:+: s := by
  induction s with
  | nil => simp [containsSub]
  | cons c t ih => simp [containsSub, List.infix_cons_iff, ih, Or.comm]

theorem containsSub_single {s : Str} {c : Char} : containsSub s [c] = true ↔ c ∈ s := by
  rw [containsSub_infix_iff]
  constructor
  · intro h; exact h.subset (by simp)
  · intro h
    obtain ⟨u, v, rfl⟩ := List.append_of_mem h
    exact ⟨u, v, by simp⟩

theorem containsSub_self {s : Str} : containsSub s s = true :=
  containsSub_infix_iff.mpr (List.infix_refl s)

theorem containsSub_nil_iff {sub : Str} : containsSub [] sub = true ↔ sub = [] := by
  rw [containsSub_infix_iff]; exact List.infix_nil

theorem lowerStr_append {a b : Str} : lowerStr (a ++ b) = lowerStr a ++ lowerStr b := by
  simp [lowerStr]

theorem lowerStr_cons {c : Char} {t : Str} :
    lowerStr (c :: t) = Char.toLower c :: lowerStr t := rfl

theorem lowerStr_length {s : Str} : (lowerStr s).length = s.length := by
  simp [lowerStr]

theorem lowerStr_take {s : Str} {n : Nat} : lowerStr (s.take n) = (lowerStr s).take n := by
  simp [lowerStr, List.map_take]

theorem lowerStr_drop {s : Str} {n : Nat} : lowerStr (s.drop n) = (lowerStr s).drop n := by
  simp [lowerStr, List.map_drop]

theorem lowerStr_eq_nil_iff {s : Str} : lowerStr s = [] ↔ s = [] := by
  simp [lowerStr]

theorem eqFold_iff {a b : Str} : eqFold a b = true ↔ lowerStr a = lowerStr b := by
  simp [eqFold]

theorem char_toNat_ofNat_valid {n : Nat} (h : n < 55296) : (Char.ofNat n).toNat = n := by
  unfold Char.ofNat
  rw [dif_pos (Or.inl h)]
  rfl

theorem toLower_eq_atSign_iff {c : Char} : Char.toLower c = '@' ↔ c = '@' := by
  constructor
  · intro h
    by_contra hne
    simp only [Char.toLower] at h
    split at h
    · next hcond =>
      have h2 : (Char.ofNat (c.toNat + 32)).toNat = ('@' : Char).toNat := by rw [h]
      rw [char_toNat_ofNat_valid (by omega)] at h2
      have h64 : ('@' : Char).toNat = 64 := by decide
      omega
    · exact hne h
  · intro h; subst h; decide

theorem atSign_mem_lowerStr_iff {s : Str} : '@' ∈ lowerStr s ↔ '@' ∈ s := by
  simp only [lowerStr, List.mem_map]
  constructor
  · rintro ⟨c, hc, hlc⟩
    rwa [toLower_eq_atSign_iff.mp hlc] at hc
  · intro h; exact ⟨'@', h, by decide⟩

theorem idxOfAt_some_decomp : ∀ {s : Str} {i : Nat}, idxOfAt s = some i →
    ∃ a b, s = a ++ '@' :: b ∧ a.length = i ∧ '@' ∉ a := by
  intro s
  induction s with
  | nil => intro i h; simp [idxOfAt] at h
  | cons c t ih =>
    intro i h
    simp only [idxOfAt] at h
    by_cases hc : (c == '@') = true
    · rw [if_pos hc] at h
      cases h
      have hceq : c = '@' := eq_of_beq hc
      subst hceq
      exact ⟨[], t, rfl, rfl, by simp⟩
    · rw [if_neg hc] at h
      cases hidx : idxOfAt t with
      | none => rw [hidx] at h; simp at h
      | some j =>
        rw [hidx] at h
        simp only [Option.map_some', Option.some.injEq] at h
        obtain ⟨a, b, rfl, rfl, hmem⟩ := ih hidx
        refine ⟨c :: a, b, rfl, by simp [← h], ?_⟩
        intro hx
        rcases List.mem_cons.mp hx with rfl | h1
        · exact hc (beq_self_eq_true '@')
        · exact hmem h1

theorem idxOfAt_append {a b : Str} (h : '@' ∉ a) : idxOfAt (a ++ '@' :: b) = some a.length := by
  induction a with
  | nil => simp [idxOfAt]
  | cons c a' ih =>
    have hc : c ≠ '@' := fun hcc => h (hcc ▸ List.mem_cons_self c a')
    have hm : '@' ∉ a' := fun hx => h (List.mem_cons_of_mem c hx)
    simp [idxOfAt, hc, ih hm]

theorem lower_decomp_atSign {p a b : Str} (h : lowerStr p = a ++ '@' :: b) :
    ∃ base ver, p = base ++ '@' :: ver ∧ lowerStr base = a ∧ lowerStr ver = b := by
  have hlen : a.length ≤ p.length := by
    have h3 := congrArg List.length h
    simp only [lowerStr, List.length_map, List.length_append, List.length_cons] at h3
    omega
  have hdrop : lowerStr (p.drop a.length) = '@' :: b := by
    rw [lowerStr_drop, h, List.drop_left]
  cases hd : p.drop a.length with
  | nil => rw [hd] at hdrop; simp [lowerStr] at hdrop
  | cons c r =>
    rw [hd, lowerStr_cons] at hdrop
    have hc : c = '@' := toLower_eq_atSign_iff.mp (List.cons.injEq .. ▸ hdrop).1
    have hr : lowerStr r = b := (List.cons.injEq .. ▸ hdrop).2
    refine ⟨p.take a.length, r, ?_, ?_, hr⟩
    · conv_lhs => rw [← List.take_append_drop a.length p]
      rw [hd, hc]
    · rw [lowerStr_take, h, List.take_left]

theorem toList_star_eq : ("*").toList = ['*'] := by decide

theorem toList_atSign_eq : ("@").toList = ['@'] := by decide

theorem toList_slash_eq : ("/").toList = ['/'] := by decide

theorem not_containsSub_single {s : Str} {c : Char} (h : containsSub s [c] = false) : c ∉ s := by
  intro hm
  rw [containsSub_single.mpr hm] at h
  cases h

theorem pkgEntryDenies_versioned {p e : Str} (h1 : containsSub e ['*'] = false)
    (h2 : containsSub e ['@'] = true) :
    pkgEntryDenies p e = (eqFold p e || containsSub (lowerStr p) (lowerStr e)) := by
  unfold pkgEntryDenies
  rw [toList_star_eq, toList_atSign_eq, h1, h2]
  cases hf : eqFold p e
  · simp
  · simp

theorem pkgEntryDenies_plain {p e : Str} (h1 : containsSub e ['*'] = false)
    (h2 : containsSub e ['@'] = false) :
    pkgEntryDenies p e =
      ((lowerStr p == lowerStr e) ||
       (match idxOfAt (lowerStr p) with
        | some idx => decide (0 < idx) && ((lowerStr p).take idx == lowerStr e)
        | none => false)) := by
  unfold pkgEntryDenies
  rw [toList_star_eq, toList_atSign_eq, h1, h2]
  cases hf : eqFold p e
  · have hf2 : (lowerStr p == lowerStr e) = false := hf
    rw [hf2]
    simp
  · have hf2 : (lowerStr p == lowerStr e) = true := hf
    rw [hf2]
    simp

theorem atVersion_match_iff {p e : Str} (hatl : '@' ∉ lowerStr e) :
    ((match idxOfAt (lowerStr p) with
      | some idx => decide (0 < idx) && ((lowerStr p).take idx == lowerStr e)
      | none => false) = true)
    ↔ ∃ base ver, p = base ++ '@' :: ver ∧ base ≠ [] ∧ eqFold base e = true := by
  constructor
  · intro hM
    cases hix : idxOfAt (lowerStr p) with
    | none => rw [hix] at hM; cases hM
    | some idx =>
      rw [hix] at hM
      simp only [Bool.and_eq_true, decide_eq_true_eq, beq_iff_eq] at hM
      obtain ⟨hpos, htake⟩ := hM
      obtain ⟨a, b, hplab, halen, _⟩ := idxOfAt_some_decomp hix
      obtain ⟨base, ver, hpbv, hbase, _⟩ := lower_decomp_atSign hplab
      refine ⟨base, ver, hpbv, ?_, ?_⟩
      · intro hnil
        rw [hnil] at hbase
        have ha0 : a = [] := by simpa [lowerStr] using hbase.symm
        rw [ha0] at halen
        simp at halen
        omega
      · rw [eqFold_iff, hbase]
        have hta : (lowerStr p).take idx = a := by
          rw [hplab, ← halen, List.take_left]
        rw [← hta, htake]
  · rintro ⟨base, ver, rfl, hbne, hbe⟩
    have hbl : lowerStr base = lowerStr e := eqFold_iff.mp hbe
    have hbmem : '@' ∉ lowerStr base := hbl ▸ hatl
    have hpl2 : lowerStr (base ++ '@' :: ver) = lowerStr base ++ '@' :: lowerStr ver := by
      rw [lowerStr_append, lowerStr_cons, show Char.toLower '@' = '@' from by decide]
    rw [hpl2, idxOfAt_append hbmem]
    simp only [Bool.and_eq_true, decide_eq_true_eq, beq_iff_eq]
    refine ⟨?_, ?_⟩
    · rw [lowerStr_length]
      exact List.length_pos.mpr hbne
    · rw [List.take_left, hbl]

/-- C1: For every package name p and every deny-list entry e without a
star: a versioned entry (containing an at-sign) matches exactly by
case-insensitive substring containment, and a plain entry matches
exactly by case-insensitive equality or by stripping a trailing
at-version suffix; the aws-sdk-go entry does not match aws-sdk-go-v2. -/
theorem c1_deny_entry_matching (p e : Str) (hstar : containsSub e (("*").toList) = false) :
    (containsSub e (("@").toList) = true →
      (pkgEntryDenies p e = true ↔ containsSub (lowerStr p) (lowerStr e) = true)) ∧
    (containsSub e (("@").toList) = false →
      (pkgEntryDenies p e = true ↔
        (eqFold p e = true ∨
         ∃ base ver, p = base ++ '@' :: ver ∧ base ≠ [] ∧ eqFold base e = true))) ∧
    pkgEntryDenies (("github.com/aws/aws-sdk-go-v2").toList)
      (("github.com/aws/aws-sdk-go").toList) = false := by
  rw [toList_star_eq] at hstar
  refine ⟨?_, ?_, by decide⟩
  · intro hat
    rw [toList_atSign_eq] at hat
    rw [pkgEntryDenies_versioned hstar hat, Bool.or_eq_true]
    constructor
    · intro h
      rcases h with hf | hc
      · rw [eqFold_iff.mp hf]
        exact containsSub_self
      · exact hc
    · intro h
      exact Or.inr h
  · intro hat
    rw [toList_atSign_eq] at hat
    have hmem : '@' ∉ e := not_containsSub_single hat
    have hatl : '@' ∉ lowerStr e := fun hm => hmem (atSign_mem_lowerStr_iff.mp hm)
    rw [pkgEntryDenies_plain hstar hat, Bool.or_eq_true, atVersion_match_iff hatl]
    exact Iff.rfl

theorem c1_deny_entry_matching_witness :
    (pkgEntryDenies (("a-pkg@v1.7.0").toList) (("pkg@v1").toList) = true ↔
      containsSub (lowerStr (("a-pkg@v1.7.0").toList)) (lowerStr (("pkg@v1").toList)) = true) ∧
    (pkgEntryDenies (("Gin@v1.7.0").toList) (("gin").toList) = true ↔
      (eqFold (("Gin@v1.7.0").toList) (("gin").toList) = true ∨
       ∃ base ver, ("Gin@v1.7.0").toList = base ++ '@' :: ver ∧ base ≠ [] ∧
         eqFold base (("gin").toList) = true)) :=
  ⟨(c1_deny_entry_matching (("a-pkg@v1.7.0").toList) (("pkg@v1").toList) (by decide)).1
      (by decide),
   (c1_deny_entry_matching (("Gin@v1.7.0").toList) (("gin").toList) (by decide)).2.1
      (by decide)⟩

/-- C2 as frozen is false: an entry that is not one of the four literal
wildcard forms, but whose lower-casing is one of them, does match. -/
theorem c2_counterexample :
    containsSub (("*ALPHA*").toList) (("*").toList) = true ∧
    ("*ALPHA*").toList ≠ ("*alpha*").toList ∧
    ("*ALPHA*").toList ≠ ("*beta*").toList ∧
    ("*ALPHA*").toList ≠ ("*rc*").toList ∧
    ("*ALPHA*").toList ≠ ("*/v0").toList ∧
    pkgEntryDenies (("myalpha").toList) (("*ALPHA*").toList) = true := by decide

/-- C2 (amended): a deny entry containing a star matches exactly via the
four recognized wildcard forms, with the comparison performed on the
lower-cased entry (and case-insensitively on the package name); every
other starred entry never matches, and starred entries are not tested
by the exact or versioned rules. -/
theorem c2_wildcard_forms (e p : Str) (h : containsSub e (("*").toList) = true) :
    pkgEntryDenies p e = true ↔
      ((lowerStr e = ("*alpha*").toList ∧
          containsSub (lowerStr p) (("alpha").toList) = true) ∨
       (lowerStr e = ("*beta*").toList ∧
          containsSub (lowerStr p) (("beta").toList) = true) ∨
       (lowerStr e = ("*rc*").toList ∧
          containsSub (lowerStr p) (("rc").toList) = true) ∨
       (lowerStr e = ("*/v0").toList ∧
          goHasSuf (lowerStr p) (("/v0").toList) = true)) := by
  rw [toList_star_eq] at h
  have hw : pkgEntryDenies p e = wildcardDenies p e := by
    unfold pkgEntryDenies
    rw [toList_star_eq, h]
    simp
  rw [hw]
  unfold wildcardDenies
  simp only [Bool.or_eq_true, Bool.and_eq_true, beq_iff_eq]
  tauto

theorem c2_wildcard_forms_witness :
    pkgEntryDenies (("myAlphaPkg").toList) (("*ALPHA*").toList) = true ↔
      ((lowerStr (("*ALPHA*").toList) = ("*alpha*").toList ∧
          containsSub (lowerStr (("myAlphaPkg").toList)) (("alpha").toList) = true) ∨
       (lowerStr (("*ALPHA*").toList) = ("*beta*").toList ∧
          containsSub (lowerStr (("myAlphaPkg").toList)) (("beta").toList) = true) ∨
       (lowerStr (("*ALPHA*").toList) = ("*rc*").toList ∧
          containsSub (lowerStr (("myAlphaPkg").toList)) (("rc").toList) = true) ∨
       (lowerStr (("*ALPHA*").toList) = ("*/v0").toList ∧
          goHasSuf (lowerStr (("myAlphaPkg").toList)) (("/v0").toList) = true)) :=
  c2_wildcard_forms (("*ALPHA*").toList) (("myAlphaPkg").toList) (by decide)

/-- C9 as frozen is false: an entry containing both a star and an
at-sign is handled by the (inert) wildcard branch and never reaches the
containment rule, so containment does not imply denial for it. -/
theorem c9_counterexample :
    containsSub (("*@v1*").toList) (("@").toList) = true ∧
    containsSub (lowerStr (("x*@v1*y").toList)) (lowerStr (("*@v1*").toList)) = true ∧
    isDenied (("x*@v1*y").toList) [] [("*@v1*").toList] [] = false := by decide

/-- C9 (amended): every deny entry containing an at-sign and no star -
including scoped registry names, not only versioned patterns - denies
every package whose lower-casing contains the lower-cased entry;
in particular an entry for types/node also denies types/node-fetch. -/
theorem c9_at_entries_containment (e p org : Str) (dps dos : List Str) (he : e ∈ dps)
    (h1 : containsSub e (("@").toList) = true)
    (h2 : containsSub e (("*").toList) = false)
    (h3 : containsSub (lowerStr p) (lowerStr e) = true) :
    isDenied p org dps dos = true ∧
    isDenied (("@types/node-fetch").toList) [] [("@types/node").toList] [] = true := by
  refine ⟨?_, by decide⟩
  unfold isDenied
  rw [Bool.or_eq_true, List.any_eq_true]
  refine Or.inl ⟨e, he, ?_⟩
  rw [toList_star_eq] at h2
  rw [toList_atSign_eq] at h1
  rw [pkgEntryDenies_versioned h2 h1]
  simp [h3]

theorem c9_at_entries_containment_witness :
    isDenied (("@types/node-fetch").toList) [] [("@types/node").toList] [] = true :=
  (c9_at_entries_containment (("@types/node").toList) (("@types/node-fetch").toList) []
    [("@types/node").toList] [] (by decide) (by decide) (by decide) (by decide)).1

/-! ### Title-pattern evaluation lemmas -/

theorem takeWhile_append_break {p : Char → Bool} {l : Str} {x : Char} {r : Str}
    (hl : ∀ c ∈ l, p c = true) (hx : p x = false) :
    (l ++ x :: r).takeWhile p = l := by
  induction l with
  | nil => simp [List.takeWhile_cons, hx]
  | cons a l' ih =>
    rw [List.cons_append, List.takeWhile_cons_of_pos (hl a (List.mem_cons_self _ _)),
      ih (fun ch hch => hl ch (List.mem_cons_of_mem _ hch))]

theorem startsFold_append {u rest p : Str} (h : startsFold u p = true) :
    startsFold (u ++ rest) p = true := by
  unfold startsFold at h ⊢
  rw [ List.isPrefixOf_iff_prefix] at h ⊢
  rw [lowerStr_append]
  exact h.trans (List.prefix_append _ _)

theorem matchTail_some_ne_nil {r1 tok : Str} (h : matchTail r1 = some tok) : tok ≠ [] := by
  simp only [matchTail] at h
  split at h
  · rename_i hguard
    injection h with h2
    subst h2
    simp only [Bool.and_eq_true, bne_iff_ne, ne_eq] at hguard
    exact hguard.1.1.2
  · cases h

theorem matchKw_some_ne_nil {kw s tok : Str} (h : matchKw kw s = some tok) : tok ≠ [] := by
  unfold matchKw at h
  split at h
  · exact matchTail_some_ne_nil h
  · cases h

theorem matchTail_eval (x : Char) (X' : Str) (hsp : ∀ c ∈ x :: X', isSpaceRe c = false)
    (c : Char) (r2 : Str) (hc : isSpaceRe c = false)
    (hor : startsFold (c :: r2) (("from").toList) = true ∨
           startsFold (c :: r2) (("to").toList) = true) :
    matchTail (' ' :: ((x :: X') ++ ' ' :: c :: r2)) = some (x :: X') := by
  have hws1 : (' ' :: ((x :: X') ++ ' ' :: c :: r2)).takeWhile (fun ch => isSpaceRe ch)
      = [' '] := by
    rw [List.takeWhile_cons_of_pos (by decide), List.cons_append,
      List.takeWhile_cons_of_neg (by simp [hsp x (List.mem_cons_self _ _)])]
  have htok : ((x :: X') ++ ' ' :: c :: r2).takeWhile (fun ch => !isSpaceRe ch)
      = x :: X' :=
    takeWhile_append_break (fun ch hch => by simp [hsp ch hch]) (by decide)
  have hws2 : (' ' :: c :: r2).takeWhile (fun ch => isSpaceRe ch) = [' '] := by
    rw [List.takeWhile_cons_of_pos (by decide),
      List.takeWhile_cons_of_neg (by simp [hc])]
  simp only [matchTail]
  rw [hws1]
  rw [show (' ' :: ((x :: X') ++ ' ' :: c :: r2)).drop ([' '] : Str).length
      = (x :: X') ++ ' ' :: c :: r2 from rfl]
  rw [htok, List.drop_left, hws2]
  rw [show (' ' :: c :: r2).drop ([' '] : Str).length = c :: r2 from rfl]
  rcases hor with h | h
  · rw [show (("from").toList : Str) = ['f', 'r', 'o', 'm'] from by decide] at h
    simp [h]
  · rw [show (("to").toList : Str) = ['t', 'o'] from by decide] at h
    simp [h]

theorem matchKw_bump_title (X A B : Str) (hX : X ≠ []) (hsp : ∀ c ∈ X, isSpaceRe c = false) :
    matchKw (("bump").toList)
      (("Bump ").toList ++ X ++ (" from ").toList ++ A ++ (" to ").toList ++ B) = some X := by
  obtain ⟨x, X', rfl⟩ : ∃ x X', X = x :: X' := by
    cases X with
    | nil => exact absurd rfl hX
    | cons x X' => exact ⟨x, X', rfl⟩
  have hsh : ("Bump ").toList ++ (x :: X') ++ (" from ").toList ++ A ++ (" to ").toList ++ B =
      ("Bump ").toList ++
        ((x :: X') ++ ' ' :: 'f' :: (("rom ").toList ++ A ++ ((" to ").toList ++ B))) := by
    rw [show (" from ").toList = ' ' :: 'f' :: ("rom ").toList from by decide]
    simp [List.append_assoc]
  rw [hsh]
  unfold matchKw
  rw [if_pos (startsFold_append (by decide))]
  rw [show ("Bump ").toList ++
        ((x :: X') ++ ' ' :: 'f' :: (("rom ").toList ++ A ++ ((" to ").toList ++ B))) =
      ("Bump").toList ++
        (' ' :: ((x :: X') ++ ' ' :: 'f' :: (("rom ").toList ++ A ++ ((" to ").toList ++ B))))
    from by
      rw [show ("Bump ").toList = ("Bump").toList ++ [' '] from by decide, List.append_assoc]
      rfl]
  rw [List.drop_left' (by decide : (("Bump").toList).length = (("bump").toList).length)]
  refine matchTail_eval x X' hsp 'f' _ (by decide) (Or.inl ?_)
  rw [show 'f' :: (("rom ").toList ++ A ++ ((" to ").toList ++ B)) =
      ("from ").toList ++ (A ++ ((" to ").toList ++ B)) from by
    rw [show ("from ").toList = 'f' :: ("rom ").toList from by decide]
    simp [List.append_assoc]]
  exact startsFold_append (by decide)

/-- C5: a title of the exact form Bump X from A to B, with X a
non-empty whitespace-free token, parses to package name X; moreover a
successful leading-Bump pattern decides the package name outright,
before the other patterns and the fallback. -/
theorem c5_bump_extraction :
    (∀ X A B : Str, X ≠ [] → (∀ c ∈ X, isSpaceRe c = false) →
      (extractPackageInfo
        (("Bump ").toList ++ X ++ (" from ").toList ++ A ++ (" to ").toList ++ B)).1 = X) ∧
    (∀ t tok : Str, matchKw (("bump").toList) t = some tok →
      (extractPackageInfo t).1 = tok) := by
  have hwin : ∀ t tok : Str, matchKw (("bump").toList) t = some tok →
      (extractPackageInfo t).1 = tok := by
    intro t tok h
    have hne := matchKw_some_ne_nil h
    have hp : phase1 t = tok := by
      unfold phase1
      rw [h]
    simp [extractPackageInfo, hp, hne]
  refine ⟨?_, hwin⟩
  intro X A B hX hsp
  exact hwin _ X (matchKw_bump_title X A B hX hsp)

theorem c5_bump_extraction_witness :
    (extractPackageInfo
      (("Bump ").toList ++ ("golang.org/x/net").toList ++ (" from ").toList ++
        ("0.17.0").toList ++ (" to ").toList ++ ("0.23.0").toList)).1 =
      ("golang.org/x/net").toList :=
  (c5_bump_extraction).1 (("golang.org/x/net").toList) (("0.17.0").toList)
    (("0.23.0").toList) (by decide) (by decide)

/-! ### Organization extraction lemmas -/

theorem goHasPre_iff {s p : Str} : goHasPre s p = true ↔ p <+: s := by
  unfold goHasPre
  exact List.isPrefixOf_iff_prefix

theorem goHasPre_excl {s a b : Str} (ha : goHasPre s a = true)
    (h1 : ¬ a <+: b) (h2 : ¬ b <+: a) : goHasPre s b = false := by
  cases hb : goHasPre s b
  · rfl
  · exfalso
    rcases List.prefix_or_prefix_of_prefix (goHasPre_iff.mp ha) (goHasPre_iff.mp hb)
      with h | h
    · exact h1 h
    · exact h2 h

theorem containsSub_of_mem_pre {s p : Str} {c : Char} (ha : goHasPre s p = true)
    (hc : c ∈ p) : containsSub s [c] = true := by
  rw [containsSub_single]
  exact (goHasPre_iff.mp ha).subset hc

/-- C6: org extraction follows the ecosystem rules: golang.org/x and
google.golang.org identifiers have no org; gopkg.in identifiers take
the second segment lower-cased when more than two segments exist,
otherwise none; github.com identifiers with at least three segments
take the second segment with case preserved. -/
theorem c6_org_extraction (pkg : Str) (hne : pkg ≠ []) :
    ((goHasPre pkg (("golang.org/x/").toList) = true ∨
      goHasPre pkg (("google.golang.org/").toList) = true) → extractOrgName pkg = []) ∧
    (goHasPre pkg (("gopkg.in/").toList) = true →
      extractOrgName pkg =
        if 2 < (splitSlash pkg).length then lowerStr ((splitSlash pkg).getD 1 []) else []) ∧
    (goHasPre pkg (("github.com/").toList) = true → 3 ≤ (splitSlash pkg).length →
      extractOrgName pkg = (splitSlash pkg).getD 1 []) := by
  refine ⟨?_, ?_, ?_⟩
  · intro hg
    unfold extractOrgName
    rw [if_neg (by simp [hne])]
    rcases hg with hg | hg
    · rw [if_neg (by rw [goHasPre_excl hg (by decide) (by decide)]; simp)]
      have hsl : containsSub pkg (("/").toList) = true := by
        rw [toList_slash_eq]
        exact containsSub_of_mem_pre hg (by decide)
      rw [if_pos hsl]
      rw [if_pos (by rw [hg]; simp)]
    · rw [if_neg (by rw [goHasPre_excl hg (by decide) (by decide)]; simp)]
      have hsl : containsSub pkg (("/").toList) = true := by
        rw [toList_slash_eq]
        exact containsSub_of_mem_pre hg (by decide)
      rw [if_pos hsl]
      rw [if_pos (by rw [hg]; simp)]
  · intro hg
    unfold extractOrgName
    rw [if_neg (by simp [hne])]
    rw [if_neg (by rw [goHasPre_excl hg (by decide) (by decide)]; simp)]
    have hsl : containsSub pkg (("/").toList) = true := by
      rw [toList_slash_eq]
      exact containsSub_of_mem_pre hg (by decide)
    rw [if_pos hsl]
    rw [if_neg (by
      rw [goHasPre_excl hg (by decide) (by decide),
        goHasPre_excl hg (by decide) (by decide)]
      simp)]
    rw [if_pos hg]
  · intro hg hlen
    unfold extractOrgName
    rw [if_neg (by simp [hne])]
    rw [if_neg (by rw [goHasPre_excl hg (by decide) (by decide)]; simp)]
    have hsl : containsSub pkg (("/").toList) = true := by
      rw [toList_slash_eq]
      exact containsSub_of_mem_pre hg (by decide)
    rw [if_pos hsl]
    rw [if_neg (by
      rw [goHasPre_excl hg (by decide) (by decide),
        goHasPre_excl hg (by decide) (by decide)]
      simp)]
    rw [if_neg (by rw [goHasPre_excl hg (by decide) (by decide)]; simp)]
    rw [if_pos (by rw [hg]; simp [hlen])]

theorem c6_org_extraction_witness :
    extractOrgName (("golang.org/x/net").toList) = [] ∧
    extractOrgName (("gopkg.in/DataDog/dd-trace-go.v1").toList) =
      (if 2 < (splitSlash (("gopkg.in/DataDog/dd-trace-go.v1").toList)).length
       then lowerStr ((splitSlash (("gopkg.in/DataDog/dd-trace-go.v1").toList)).getD 1 [])
       else []) ∧
    extractOrgName (("github.com/datadog/datadog-go").toList) =
      (splitSlash (("github.com/datadog/datadog-go").toList)).getD 1 [] :=
  ⟨(c6_org_extraction (("golang.org/x/net").toList) (by decide)).1 (Or.inl (by decide)),
   (c6_org_extraction (("gopkg.in/DataDog/dd-trace-go.v1").toList) (by decide)).2.1
     (by decide),
   (c6_org_extraction (("github.com/datadog/datadog-go").toList) (by decide)).2.2
     (by decide) (by decide)⟩

/-! ### PR enumeration lemmas -/

theorem processPulls_length (q : DependencyUpdateQuery) (statusOf : Str → Option Str)
    (pulls : List PullData) :
    (processPulls q statusOf pulls).length =
      (pulls.filter (fun x => x.userID == dependabotUserID)).length := by
  induction pulls with
  | nil => rfl
  | cons p rest ih =>
    cases hb : (p.userID == dependabotUserID)
    · simp [processPulls, List.filter_cons, hb, ih]
    · simp [processPulls, List.filter_cons, hb, ih]

/-- C8: a failed CI-status lookup for one PR neither fails nor drops
the record of that PR: the record is still produced from the same pure
pipeline with its status left empty, and the number of records equals
the number of Dependabot-authored PRs regardless of the lookup. -/
theorem c8_status_failure_soft (q : DependencyUpdateQuery) (statusOf : Str → Option Str)
    (pulls : List PullData) (p : PullData) (hp : p ∈ pulls)
    (hbot : p.userID = dependabotUserID) (hfail : statusOf p.headSHA = none) :
    buildPR q p none ∈ processPulls q statusOf pulls ∧
    (buildPR q p none).status = [] ∧
    (processPulls q statusOf pulls).length =
      (pulls.filter (fun x => x.userID == dependabotUserID)).length := by
  refine ⟨?_, rfl, processPulls_length q statusOf pulls⟩
  induction pulls with
  | nil => cases hp
  | cons a rest ih =>
    rcases List.mem_cons.mp hp with rfl | h2
    · unfold processPulls
      rw [if_pos (by simp [hbot])]
      rw [hfail]
      exact List.mem_cons_self _ _
    · unfold processPulls
      cases hb : (a.userID == dependabotUserID)
      · rw [if_neg (by simp [hb])]
        exact ih h2
      · rw [if_pos rfl]
        exact List.mem_cons_of_mem _ (ih h2)

theorem c8_status_failure_soft_witness :
    buildPR sampleQuery samplePull none ∈
      processPulls sampleQuery (fun _ => none) [samplePull] ∧
    (buildPR sampleQuery samplePull none).status = [] ∧
    (processPulls sampleQuery (fun _ => none) [samplePull]).length =
      ([samplePull].filter (fun x => x.userID == dependabotUserID)).length :=
  c8_status_failure_soft sampleQuery (fun _ => none) [samplePull] samplePull
    (List.mem_cons_self _ _) rfl rfl

/-! ### Reason-selection lemmas -/

theorem orgReasonStr_ne_nil (org : Str) : orgReasonStr org ≠ [] := by
  unfold orgReasonStr
  intro h
  have h2 := congrArg List.length h
  simp at h2

theorem orgReasonScan_eq (org : Str) (dos : List Str) :
    orgReasonScan org dos =
      if dos.any (fun d => eqFold org d) then orgReasonStr org else [] := by
  induction dos with
  | nil => simp [orgReasonScan]
  | cons d rest ih =>
    unfold orgReasonScan
    cases hd : eqFold org d
    · simp [List.any_cons, hd, ih]
    · simp [List.any_cons, hd]

theorem pkgReasonScan_eq (pkg : Str) (dps : List Str) :
    pkgReasonScan pkg dps =
      (match dps.find? (fun d => reasonMatch pkg d) with
       | some d => pkgReasonStr d
       | none => []) := by
  induction dps with
  | nil => simp [pkgReasonScan]
  | cons d rest ih =>
    unfold pkgReasonScan
    cases hd : reasonMatch pkg d
    · rw [List.find?_cons_of_neg _ (by simp [hd])]
      simp [hd, ih]
    · rw [List.find?_cons_of_pos _ (by simp [hd])]
      simp [hd]

theorem skipReason_org {pkg org : Str} {dps dos : List Str} (hne : org ≠ [])
    (hmatch : dos.any (fun d => eqFold org d) = true) :
    skipReason pkg org dps dos = orgReasonStr org := by
  unfold skipReason
  rw [show (org != []) = true from by simp [hne]]
  rw [if_pos rfl]
  rw [orgReasonScan_eq, if_pos hmatch]
  show (if ((orgReasonStr org == []) && (pkg != [])) = true then pkgReasonScan pkg dps
      else orgReasonStr org) = orgReasonStr org
  rw [show (orgReasonStr org == []) = false from by
    simp [orgReasonStr_ne_nil org]]
  simp

theorem skipReason_noOrgMatch {pkg org : Str} {dps dos : List Str}
    (h : org = [] ∨ dos.any (fun d => eqFold org d) = false) :
    skipReason pkg org dps dos =
      (if pkg ≠ [] then pkgReasonScan pkg dps else []) := by
  unfold skipReason
  have hr : (if (org != []) = true then orgReasonScan org dos else []) = [] := by
    rcases h with h | h
    · rw [show (org != []) = false from by simp [h]]
      simp
    · cases horg : (org != [])
      · simp
      · rw [if_pos rfl, orgReasonScan_eq, h]
        simp
  rw [hr]
  show (if ((([] : Str) == []) && (pkg != [])) = true then pkgReasonScan pkg dps
      else ([] : Str)) = if pkg ≠ [] then pkgReasonScan pkg dps else []
  cases hp : (pkg != [])
  · have hpk : ¬ pkg ≠ [] := by simpa using hp
    simp [hpk]
  · have hpk : pkg ≠ [] := by simpa using hp
    simp [hpk]

/-- C3: for every denied PR, the skip reason prefers a recomputed org
match (formatted with the extracted org name), otherwise names the
first deniedPackages entry matching by case-insensitive equality or
containment, and is empty when neither recomputed check holds - while
the record stays denied. -/
theorem c3_reason_selection (pkg org : Str) (dps dos : List Str)
    (hden : isDenied pkg org dps dos = true) :
    (denyDecision pkg org dps dos).1 = true ∧
    ((org ≠ [] ∧ ∃ d ∈ dos, eqFold org d = true) →
      (denyDecision pkg org dps dos).2 = orgReasonStr org) ∧
    (¬(org ≠ [] ∧ ∃ d ∈ dos, eqFold org d = true) → pkg ≠ [] →
      ∀ d, dps.find? (fun x => reasonMatch pkg x) = some d →
        (denyDecision pkg org dps dos).2 = pkgReasonStr d) ∧
    (¬(org ≠ [] ∧ ∃ d ∈ dos, eqFold org d = true) →
      (pkg = [] ∨ dps.find? (fun x => reasonMatch pkg x) = none) →
      (denyDecision pkg org dps dos).2 = []) := by
  have hdec : denyDecision pkg org dps dos = (true, skipReason pkg org dps dos) := by
    unfold denyDecision
    rw [hden]
    simp
  rw [hdec]
  refine ⟨rfl, ?_, ?_, ?_⟩
  · rintro ⟨hone, d0, hd0, hmatch⟩
    exact skipReason_org hone (List.any_eq_true.mpr ⟨d0, hd0, hmatch⟩)
  · intro hno hpk d hfind
    have hcase : org = [] ∨ dos.any (fun d => eqFold org d) = false := by
      by_cases ho : org = []
      · exact Or.inl ho
      · right
        cases ha : dos.any (fun d => eqFold org d)
        · rfl
        · exact absurd ⟨ho, List.any_eq_true.mp ha⟩ hno
    rw [skipReason_noOrgMatch hcase, if_pos hpk, pkgReasonScan_eq, hfind]
  · intro hno hempty
    have hcase : org = [] ∨ dos.any (fun d => eqFold org d) = false := by
      by_cases ho : org = []
      · exact Or.inl ho
      · right
        cases ha : dos.any (fun d => eqFold org d)
        · rfl
        · exact absurd ⟨ho, List.any_eq_true.mp ha⟩ hno
    rw [skipReason_noOrgMatch hcase]
    rcases hempty with h | h
    · simp [h]
    · by_cases hpk : pkg ≠ []
      · rw [if_pos hpk, pkgReasonScan_eq, h]
      · simp [hpk]

theorem c3_reason_selection_witness :
    (denyDecision (("github.com/datadog/datadog-go").toList) (("datadog").toList)
      [] [("DataDog").toList]).2 = orgReasonStr (("datadog").toList) :=
  ((c3_reason_selection (("github.com/datadog/datadog-go").toList) (("datadog").toList)
      [] [("DataDog").toList] (by decide)).2.1
    ⟨by decide, ("DataDog").toList, by decide, by decide⟩)

/-! ### removeDuplicates lemmas -/

theorem contains_false_iff {l : List Str} {a : Str} : l.contains a = false ↔ a ∉ l := by
  rw [show l.contains a = l.elem a from rfl]
  constructor
  · intro h hm
    rw [List.elem_iff.mpr hm] at h
    cases h
  · intro h
    cases hc : l.elem a
    · rfl
    · exact absurd (List.elem_iff.mp hc) h

theorem removeDupAux_cons (seen : List Str) (x : Str) (xs : List Str) :
    removeDupAux seen (x :: xs) =
      if (normEntry x != [] && !(seen.contains (normEntry x))) = true then
        x :: removeDupAux (normEntry x :: seen) xs
      else removeDupAux seen xs := rfl

theorem cond_true_parts {seen : List Str} {x : Str}
    (hc : (normEntry x != [] && !(seen.contains (normEntry x))) = true) :
    normEntry x ≠ [] ∧ normEntry x ∉ seen := by
  simp only [Bool.and_eq_true, bne_iff_ne, ne_eq, Bool.not_eq_true'] at hc
  exact ⟨hc.1, contains_false_iff.mp hc.2⟩

theorem cond_false_parts {seen : List Str} {x : Str}
    (hc : ¬(normEntry x != [] && !(seen.contains (normEntry x))) = true) :
    normEntry x = [] ∨ normEntry x ∈ seen := by
  simp only [Bool.and_eq_true, bne_iff_ne, ne_eq, Bool.not_eq_true'] at hc
  by_cases h1 : normEntry x = []
  · exact Or.inl h1
  · right
    by_cases h2 : normEntry x ∈ seen
    · exact h2
    · exact absurd ⟨h1, contains_false_iff.mpr h2⟩ hc

theorem removeDupAux_mem : ∀ {l seen : List Str} {x : Str},
    x ∈ removeDupAux seen l → normEntry x ≠ [] ∧ normEntry x ∉ seen ∧ x ∈ l := by
  intro l
  induction l with
  | nil =>
    intro seen x h
    rw [show removeDupAux seen [] = [] from rfl] at h
    cases h
  | cons y ys ih =>
    intro seen x h
    rw [removeDupAux_cons] at h
    by_cases hc : (normEntry y != [] && !(seen.contains (normEntry y))) = true
    · rw [if_pos hc] at h
      rcases List.mem_cons.mp h with rfl | h2
      · obtain ⟨h1, h2⟩ := cond_true_parts hc
        exact ⟨h1, h2, List.mem_cons_self _ _⟩
      · obtain ⟨h1, h2', h3⟩ := ih h2
        refine ⟨h1, ?_, List.mem_cons_of_mem _ h3⟩
        intro hm
        exact h2' (List.mem_cons_of_mem _ hm)
    · rw [if_neg hc] at h
      obtain ⟨h1, h2', h3⟩ := ih h
      exact ⟨h1, h2', List.mem_cons_of_mem _ h3⟩

theorem removeDupAux_pairwise : ∀ (l seen : List Str),
    (removeDupAux seen l).Pairwise (fun a b => normEntry a ≠ normEntry b) := by
  intro l
  induction l with
  | nil => intro seen; exact List.Pairwise.nil
  | cons y ys ih =>
    intro seen
    rw [removeDupAux_cons]
    by_cases hc : (normEntry y != [] && !(seen.contains (normEntry y))) = true
    · rw [if_pos hc]
      refine List.Pairwise.cons ?_ (ih _)
      intro b hb heq
      exact (removeDupAux_mem hb).2.1 (by rw [← heq]; exact List.mem_cons_self _ _)
    · rw [if_neg hc]
      exact ih seen

theorem removeDupAux_find? : ∀ {l seen : List Str} {x : Str}, x ∈ removeDupAux seen l →
    l.find? (fun y => normEntry y == normEntry x) = some x := by
  intro l
  induction l with
  | nil =>
    intro seen x h
    rw [show removeDupAux seen [] = [] from rfl] at h
    cases h
  | cons y ys ih =>
    intro seen x h
    rw [removeDupAux_cons] at h
    by_cases hc : (normEntry y != [] && !(seen.contains (normEntry y))) = true
    · rw [if_pos hc] at h
      rcases List.mem_cons.mp h with rfl | h2
      · rw [List.find?_cons_of_pos _ (by simp)]
      · have h3 := removeDupAux_mem h2
        have hne : normEntry y ≠ normEntry x := by
          intro he
          exact h3.2.1 (by rw [← he]; exact List.mem_cons_self _ _)
        rw [List.find?_cons_of_neg _ (by simp [hne])]
        exact ih h2
    · rw [if_neg hc] at h
      have h3 := removeDupAux_mem h
      have hne : normEntry y ≠ normEntry x := by
        intro he
        rcases cond_false_parts hc with h0 | h0
        · exact h3.1 (by rw [← he, h0])
        · exact h3.2.1 (he ▸ h0)
      rw [List.find?_cons_of_neg _ (by simp [hne])]
      exact ih h

theorem removeDupAux_covers : ∀ {l seen : List Str} {x : Str}, x ∈ l → normEntry x ≠ [] →
    normEntry x ∉ seen → ∃ y ∈ removeDupAux seen l, normEntry y = normEntry x := by
  intro l
  induction l with
  | nil => intro seen x h; cases h
  | cons z zs ih =>
    intro seen x hx hnx hns
    rw [removeDupAux_cons]
    by_cases hc : (normEntry z != [] && !(seen.contains (normEntry z))) = true
    · rw [if_pos hc]
      by_cases hxz : normEntry z = normEntry x
      · exact ⟨z, List.mem_cons_self _ _, hxz⟩
      · rcases List.mem_cons.mp hx with rfl | h2
        · exact absurd rfl hxz
        · obtain ⟨y, hy, hyx⟩ := ih h2 hnx (by
            intro hmem
            rcases List.mem_cons.mp hmem with h | h
            · exact hxz h.symm
            · exact hns h)
          exact ⟨y, List.mem_cons_of_mem _ hy, hyx⟩
    · rw [if_neg hc]
      rcases List.mem_cons.mp hx with rfl | h2
      · exfalso
        rcases cond_false_parts hc with h0 | h0
        · exact hnx h0
        · exact hns h0
      · exact ih h2 hnx hns

theorem removeDupAux_idem (l : List Str) :
    ∀ seen, removeDupAux seen (removeDupAux seen l) = removeDupAux seen l := by
  induction l with
  | nil => intro seen; rfl
  | cons x xs ih =>
    intro seen
    rw [removeDupAux_cons]
    by_cases hc : (normEntry x != [] && !(seen.contains (normEntry x))) = true
    · rw [if_pos hc, removeDupAux_cons, if_pos hc, ih]
    · rw [if_neg hc, ih]

theorem removeDuplicates_idem (l : List Str) :
    removeDuplicates (removeDuplicates l) = removeDuplicates l := removeDupAux_idem l []

/-- C7: re-merging an already-merged policy with the empty override is
the identity - the resolver is idempotent. -/
theorem c7_resolve_idempotent (g r : DenyPolicy) :
    resolvePolicy (resolvePolicy g r) emptyPolicy = resolvePolicy g r := by
  unfold resolvePolicy emptyPolicy
  simp only [List.append_nil, DenyPolicy.mk.injEq]
  exact ⟨removeDuplicates_idem _, removeDuplicates_idem _⟩

/-- C10: every effective deny list is made of non-blank entries that
are pairwise distinct after trimming and lower-casing; each survivor is
the first occurrence of its normalized form, in its original untrimmed
spelling, and every non-blank configured entry is represented. -/
theorem c10_effective_list_invariant (l : List Str) :
    (∀ x ∈ removeDuplicates l, normEntry x ≠ []) ∧
    (removeDuplicates l).Pairwise (fun a b => normEntry a ≠ normEntry b) ∧
    (∀ x ∈ removeDuplicates l, l.find? (fun y => normEntry y == normEntry x) = some x) ∧
    (∀ x ∈ l, normEntry x ≠ [] → ∃ y ∈ removeDuplicates l, normEntry y = normEntry x) := by
  refine ⟨?_, removeDupAux_pairwise l [], ?_, ?_⟩
  · intro x hx
    exact (removeDupAux_mem hx).1
  · intro x hx
    exact removeDupAux_find? hx
  · intro x hx hnx
    exact removeDupAux_covers hx hnx (by simp)

theorem c10_effective_list_invariant_witness :
    List.find?
      (fun y => normEntry y == normEntry ((" Foo ").toList))
      [(" Foo ").toList, ("foo").toList, ("").toList] = some ((" Foo ").toList) :=
  (c10_effective_list_invariant [(" Foo ").toList, ("foo").toList, ("").toList]).2.2.1
    ((" Foo ").toList) (by decide)

/-! ### Empty package names are never denied -/

theorem containsSub_nil_false {sub : Str} (h : sub ≠ []) : containsSub [] sub = false := by
  cases hc : containsSub [] sub
  · rfl
  · exact absurd (containsSub_nil_iff.mp hc) h

theorem eqFold_nil_left {e : Str} (he : e ≠ []) : eqFold [] e = false := by
  have hle : lowerStr e ≠ [] := fun h => he (lowerStr_eq_nil_iff.mp h)
  unfold eqFold
  cases hx : lowerStr e
  · exact absurd hx hle
  · rfl

theorem pkgEntryDenies_star {p e : Str} (h : containsSub e ['*'] = true) :
    pkgEntryDenies p e = wildcardDenies p e := by
  unfold pkgEntryDenies
  rw [toList_star_eq, h]
  simp

theorem wildcardDenies_nil (e : Str) : wildcardDenies [] e = false := by
  unfold wildcardDenies
  rw [show containsSub (lowerStr []) (("alpha").toList) = false from by decide,
    show containsSub (lowerStr []) (("beta").toList) = false from by decide,
    show containsSub (lowerStr []) (("rc").toList) = false from by decide,
    show goHasSuf (lowerStr []) (("/v0").toList) = false from by decide]
  simp

theorem pkgEntryDenies_nil {e : Str} (he : e ≠ []) : pkgEntryDenies [] e = false := by
  have hle : lowerStr e ≠ [] := fun h => he (lowerStr_eq_nil_iff.mp h)
  cases hstar : containsSub e ['*']
  · cases hat : containsSub e ['@']
    · rw [pkgEntryDenies_plain hstar hat]
      rw [show idxOfAt (lowerStr []) = none from rfl]
      have hf2 : (lowerStr ([] : Str) == lowerStr e) = false := eqFold_nil_left he
      rw [hf2]
      rfl
    · rw [pkgEntryDenies_versioned hstar hat, eqFold_nil_left he]
      rw [show containsSub (lowerStr []) (lowerStr e) = containsSub [] (lowerStr e) from rfl]
      rw [containsSub_nil_false hle]
      rfl
  · rw [pkgEntryDenies_star hstar, wildcardDenies_nil]

theorem isDenied_nil_nil {dps dos : List Str} (hp : ∀ e ∈ dps, e ≠ [])
    (ho : ∀ e ∈ dos, e ≠ []) : isDenied [] [] dps dos = false := by
  unfold isDenied
  have hd1 : dps.any (fun d => pkgEntryDenies [] d) = false := by
    rw [List.any_eq_false]
    intro x hx
    rw [pkgEntryDenies_nil (hp x hx)]
    simp
  have hd2 : dos.any (fun d => eqFold [] d) = false := by
    rw [List.any_eq_false]
    intro x hx
    rw [eqFold_nil_left (ho x hx)]
    simp
  rw [hd1, hd2]
  rfl

theorem removeDuplicates_mem_ne_nil {l : List Str} {e : Str}
    (h : e ∈ removeDuplicates l) : e ≠ [] := by
  intro henil
  exact (removeDupAux_mem h).1 (by rw [henil]; rfl)

/-- C4: a title matched by no phase-1 pattern and whose whitespace
tokens after the first contain neither a slash nor an at-sign parses to
an all-empty dependency reference, without error, and such a dependency
is never denied under any deny policy produced by the merge step. -/
theorem c4_unparsed_never_denied (title : Str)
    (h1 : matchKw (("bump").toList) title = none)
    (h2 : matchKw (("update").toList) title = none)
    (h3 : matchChore title = none)
    (h4 : ∀ tok ∈ (fieldsGo title).tail,
        containsSub tok (("/").toList) = false ∧ containsSub tok (("@").toList) = false) :
    extractPackageInfo title = ([], []) ∧
    ∀ a b : List Str,
      isDenied (extractPackageInfo title).1 (extractPackageInfo title).2
        (removeDuplicates a) (removeDuplicates b) = false := by
  have hp1 : phase1 title = [] := by
    unfold phase1
    rw [h1, h2, h3]
  have hfb : fallbackTok title = [] := by
    unfold fallbackTok
    cases hfld : fieldsGo title with
    | nil => rfl
    | cons hd rest =>
      have hfind : rest.find?
          (fun t => containsSub t (("/").toList) || containsSub t (("@").toList)) = none := by
        rw [List.find?_eq_none]
        intro t ht
        have h4t := h4 t (by rw [hfld]; exact ht)
        rw [toList_slash_eq, toList_atSign_eq] at h4t
        simp [h4t.1, h4t.2]
      simp only [hfind]
  have hepi : extractPackageInfo title = ([], []) := by
    simp [extractPackageInfo, hp1, hfb, extractOrgName]
  refine ⟨hepi, ?_⟩
  intro a b
  rw [hepi]
  exact isDenied_nil_nil
    (fun e he => removeDuplicates_mem_ne_nil he)
    (fun e he => removeDuplicates_mem_ne_nil he)

theorem c4_unparsed_never_denied_witness :
    extractPackageInfo (("Merge branch main").toList) = ([], []) ∧
    isDenied (extractPackageInfo (("Merge branch main").toList)).1
      (extractPackageInfo (("Merge branch main").toList)).2
      (removeDuplicates [("github.com/pkg/errors").toList])
      (removeDuplicates [("datadog").toList]) = false :=
  ⟨(c4_unparsed_never_denied (("Merge branch main").toList)
      (by decide) (by decide) (by decide) (by decide)).1,
   (c4_unparsed_never_denied (("Merge branch main").toList)
      (by decide) (by decide) (by decide) (by decide)).2
     [("github.com/pkg/errors").toList] [("datadog").toList]⟩

/-! ### Specification test vectors -/

theorem parse_vector_go_module :
    (extractPackageInfo ("Bump github.com/datadog/datadog-go from 1.0.0 to 2.0.0").toList)
      = (("github.com/datadog/datadog-go").toList, ("datadog").toList) := by decide

theorem parse_vector_scoped :
    (extractPackageInfo ("Bump @datadog/browser-rum from 4.0.0 to 5.0.0").toList).2
      = ("datadog").toList := by decide

theorem parse_vector_update :
    (extractPackageInfo ("Update rails to 7.0.0").toList) = (("rails").toList, []) := by decide

theorem parse_vector_golang_x :
    (extractPackageInfo ("Bump golang.org/x/net from 0.17.0 to 0.23.0").toList).2 = [] := by
  decide

theorem parse_vector_chore :
    (extractPackageInfo ("chore(deps): bump lodash from 1 to 2").toList).1
      = ("lodash").toList := by decide

theorem deny_vector_versioned :
    isDenied ("pkg@v1.7.0").toList [] [("pkg@v1").toList] [] = true := by decide

theorem deny_vector_org_fold :
    isDenied ("x").toList ("datadog").toList [] [("DataDog").toList] = true := by decide

theorem deny_vector_reason :
    denyDecision ("github.com/datadog/datadog-go").toList ("datadog").toList
      [] [("datadog").toList] = (true, ("org \x27datadog\x27 is denied").toList) := by decide

theorem merge_vector :
    removeDuplicates [(" A ").toList, ("a").toList, ("").toList, ("b").toList]
      = [(" A ").toList, ("b").toList] := by decide
